import Mathlib

/-!
Verification of the traffic-sense backend aggregation pipeline.

The development shallowly embeds the logic of `src/server.js` and
`src/constants/time.js`:

* lodash helpers `uniqBy`, `sortBy`, `groupBy` are embedded as executable
  Lean functions with the same extensional behaviour (`uniqBy` keeps the
  first-encountered element per key; `sortBy` is a stable ascending sort,
  realised here by stable insertion sort; `groupBy`+`toPairs` lists keys
  in first-occurrence order, each mapped to all its elements in input
  order);
* JavaScript `Date` built-ins (`getTime`, `getFullYear`, `getMonth`,
  `getDate`, `setHours(0)` etc.) are embedded over milliseconds-since-epoch
  integers, with the host time zone modelled as the fixed offset UTC-8
  (America/Vancouver standard time; daylight-saving shifts are abstracted
  away).  The Gregorian civil calendar is computed by a year scan from
  1970, valid for all instants at or after local midnight 1970-01-01,
  which covers every timestamp the pipeline can serve (they are all at or
  after `LAUNCH_DAY`, end of 2023);
* code that throws (`getCountsByDay`, the `cameraData` lookup) returns
  `Except String`; the mutable caches and the fetch watermark become an
  explicit `ServerState` threaded through the cycle function.
-/

deriving instance DecidableEq for Except

namespace TrafficSense

/-! ## Embeddings of the lodash list helpers used by `server.js` -/

/-- Embedding of lodash `uniqBy`: keep the first-encountered element for each
key.  The `seen` accumulator holds the keys already emitted. -/
def uniqByAux {α κ : Type} [DecidableEq κ] (f : α → κ) : List κ → List α → List α
  | _, [] => []
  | seen, x :: xs =>
      if f x ∈ seen then uniqByAux f seen xs
      else x :: uniqByAux f (f x :: seen) xs

/-- lodash `uniqBy(l, f)`. -/
def uniqBy {α κ : Type} [DecidableEq κ] (f : α → κ) (l : List α) : List α :=
  uniqByAux f [] l

/-- Insert `x` into `l` just before the first element whose key is not
smaller, so that elements with equal keys keep their input order. -/
def insertSorted {α κ : Type} [LinearOrder κ] (f : α → κ) (x : α) : List α → List α
  | [] => [x]
  | y :: ys => if f y < f x then y :: insertSorted f x ys else x :: y :: ys

/-- Embedding of lodash `sortBy(l, f)`: the stable ascending sort by key,
realised by stable insertion sort (extensionally, the unique stable sort). -/
def sortByKey {α κ : Type} [LinearOrder κ] (f : α → κ) : List α → List α
  | [] => []
  | x :: xs => insertSorted f x (sortByKey f xs)

/-- Fuel-driven recursion for the embedding of lodash `groupBy` followed by
`toPairs`: the first group is the head key together with all elements sharing
its key, then the remaining elements are grouped recursively.  With
`fuel ≥ l.length` the fuel never runs out. -/
def groupPairsByAux {α κ : Type} [DecidableEq κ] (f : α → κ) : Nat → List α → List (κ × List α)
  | 0, _ => []
  | _, [] => []
  | fuel + 1, x :: xs =>
      (f x, x :: xs.filter (fun y => decide (f y = f x))) ::
        groupPairsByAux f fuel (xs.filter (fun y => decide (¬ f y = f x)))

/-- Embedding of lodash `groupBy(l, f)` composed with `toPairs`: keys appear
in first-occurrence order (the insertion order of the resulting object, which
is how lodash `toPairs` iterates for the non-numeric string keys used here),
and each key is mapped to all of its elements in input order. -/
def groupPairsBy {α κ : Type} [DecidableEq κ] (f : α → κ) (l : List α) : List (κ × List α) :=
  groupPairsByAux f l.length l

/-- Run an effectful map over a list, stopping at the first error: the
embedding of a lodash `map` whose body can `throw`. -/
def mapOrError {α β ε : Type} (g : α → Except ε β) : List α → Except ε (List β)
  | [] => Except.ok []
  | x :: xs =>
      match g x with
      | Except.error e => Except.error e
      | Except.ok y =>
          match mapOrError g xs with
          | Except.error e => Except.error e
          | Except.ok ys => Except.ok (y :: ys)

/-! ## Clock and calendar embeddings (`src/constants/time.js` and `Date`) -/

/-- Constant `ONE_HOUR_MS` from `constants/time.js`. -/
def ONE_HOUR_MS : Int := 60 * 60 * 1000

/-- Constant `TEN_MINUTES_MS` from `constants/time.js`. -/
def TEN_MINUTES_MS : Int := 10 * 60 * 1000

/-- Milliseconds in one day. -/
def MS_PER_DAY : Int := 86400000

/-- Offset of host local time from UTC in milliseconds.  The deployment zone
is America/Vancouver; we model it by its standard-time offset UTC-8. -/
def TZ_OFFSET_MS : Int := -28800000

/-- Constant `LAUNCH_DAY` from `constants/time.js`:
`Date.parse("2023-12-30T00:00:00.000-08:00")`, the instant of local midnight
on 2023-12-30 (day number 19721 since the epoch, times 86400000, plus the
8 hour zone shift). -/
def LAUNCH_DAY : Int := 1703923200000

/-- Embedding of `getLocalMidnightNDaysAgo(n)` from `constants/time.js`:
take the instant `n` days before `now`, and zero its local
hour/minute/second/millisecond fields, i.e. floor it to the local midnight
of the local day it falls in.  `now` is the current clock reading
(`Date.now()`), passed explicitly. -/
def getLocalMidnightNDaysAgo (now : Int) (n : Nat) : Int :=
  let t := now - n * MS_PER_DAY
  t - (t + TZ_OFFSET_MS) % MS_PER_DAY

/-- Embedding of `getInitialTimeLastFetched()` from `constants/time.js`. -/
def getInitialTimeLastFetched (now : Int) : Int :=
  max LAUNCH_DAY (getLocalMidnightNDaysAgo now 7) - ONE_HOUR_MS

/-- JavaScript `Math.round` applied to the exact quotient `a / b` for
positive `b`: round to the nearest integer, halves toward positive
infinity, i.e. the floor of `a / b + 1 / 2`, written in integer arithmetic
as the floor of `(2a + b) / (2b)`.  (Lean integer division by a positive
divisor is the floor.)  The floating-point representation error of the
double arguments the server feeds `Math.round` is abstracted away; the
theorem for claim C3 proves this definition equal to the rational-floor
formulation. -/
def jsMathRoundDiv (a b : Int) : Int := (2 * a + b) / (2 * b)

/-- Embedding of `roundToNearestQuarterHour(date)` from `server.js`
(lines 115-119): `Math.round(date.getTime() / 900000) * 900000`. -/
def roundToNearestQuarterHour (ms : Int) : Int :=
  let msPerQuarterHour : Int := 15 * 60 * 1000
  jsMathRoundDiv ms msPerQuarterHour * msPerQuarterHour

/-- Gregorian leap-year rule. -/
def isLeap (y : Nat) : Bool := y % 4 == 0 && (y % 100 != 0 || y % 400 == 0)

/-- Number of days of Gregorian year `y`. -/
def yearLength (y : Nat) : Nat := if isLeap y then 366 else 365

/-- Fuel-driven year scan: starting from year `y` with `r` whole days left,
step forward one year at a time until fewer than a year of days remains.
Returns the final year and the zero-based day of that year.  With
`fuel > r` the fuel never runs out. -/
def yearSplit : Nat → Nat → Nat → Nat × Nat
  | 0, y, r => (y, r)
  | fuel + 1, y, r =>
      if r < yearLength y then (y, r) else yearSplit fuel (y + 1) (r - yearLength y)

/-- Convert a zero-based day of year into a (1-based month, 1-based day)
pair, by the cumulative month lengths of a year whose february has `feb`
days. -/
def monthFromDayOfYearF (feb : Nat) (r : Nat) : Nat × Nat :=
  if r < 31 then (1, r + 1)
  else if r < 31 + feb then (2, r - 31 + 1)
  else if r < 62 + feb then (3, r - (31 + feb) + 1)
  else if r < 92 + feb then (4, r - (62 + feb) + 1)
  else if r < 123 + feb then (5, r - (92 + feb) + 1)
  else if r < 153 + feb then (6, r - (123 + feb) + 1)
  else if r < 184 + feb then (7, r - (153 + feb) + 1)
  else if r < 215 + feb then (8, r - (184 + feb) + 1)
  else if r < 245 + feb then (9, r - (215 + feb) + 1)
  else if r < 276 + feb then (10, r - (245 + feb) + 1)
  else if r < 306 + feb then (11, r - (276 + feb) + 1)
  else (12, r - (306 + feb) + 1)

/-- Convert a zero-based day of year into a (1-based month, 1-based day)
pair, by the cumulative Gregorian month lengths. -/
def monthFromDayOfYear (leap : Bool) (r : Nat) : Nat × Nat :=
  monthFromDayOfYearF (if leap then 29 else 28) r

/-- Civil Gregorian date (year, month, day) of day number `z` counted from
1970-01-01, the calendar computed by the JavaScript `Date` built-ins. -/
def civilFromDayNumber (z : Nat) : Nat × Nat × Nat :=
  let p := yearSplit (z + 1) 1970 z
  let md := monthFromDayOfYear (isLeap p.1) p.2
  (p.1, md.1, md.2)

/-- Decimal digit characters. -/
def digitChar (d : Nat) : Char :=
  match d with
  | 0 => '0' | 1 => '1' | 2 => '2' | 3 => '3' | 4 => '4'
  | 5 => '5' | 6 => '6' | 7 => '7' | 8 => '8' | _ => '9'

/-- Fuel-driven most-significant-first decimal digit expansion. -/
def natToStrAux : Nat → Nat → List Char
  | 0, _ => []
  | fuel + 1, n =>
      if n < 10 then [digitChar n]
      else natToStrAux fuel (n / 10) ++ [digitChar (n % 10)]

/-- Decimal string of a natural number: the embedding of JavaScript
number-to-string coercion inside a template literal, for the nonnegative
integers the date code feeds it. -/
def natToStr (n : Nat) : String := String.mk (natToStrAux (n + 1) n)

/-- Local calendar-day number of an instant: the number of whole local days
since local midnight 1970-01-01. -/
def dayNumberOfMs (ms : Int) : Int := (ms + TZ_OFFSET_MS) / MS_PER_DAY

/-- Unpadded `YYYY-M-D` key for a local day number. -/
def dateStringOfDayNumber (z : Nat) : String :=
  let c := civilFromDayNumber z
  natToStr c.1 ++ "-" ++ natToStr c.2.1 ++ "-" ++ natToStr c.2.2

/-- Embedding of `getYYYYMMDDDate(timestamp)` from `server.js`
(lines 138-144): the unpadded local-date key
`getFullYear()-getMonth()+1-getDate()`.  Valid for instants at or after
local midnight 1970-01-01 (`dayNumberOfMs ms ≥ 0`), which holds for every
timestamp the pipeline buckets. -/
def getYYYYMMDDDate (ms : Int) : String :=
  dateStringOfDayNumber (dayNumberOfMs ms).toNat

/-! ## Data model -/

/-- A raw store record: Mongo `_id` (hex string, the identity key),
intersection name, timestamp in ms since the epoch, and the vehicle count. -/
structure RawRecord where
  _id : String
  intersection : String
  timestamp : Int
  vehicleCount : Nat
deriving DecidableEq

/-- A record after quantization (intersection kept, timestamp rounded). -/
structure QPoint where
  intersection : String
  timestamp : Int
  vehicleCount : Nat
deriving DecidableEq

/-- The `pick(c, ["timestamp", "vehicleCount"])` projection. -/
structure CPoint where
  timestamp : Int
  vehicleCount : Nat
deriving DecidableEq

/-- Per-intersection aggregate: location and the daily count buckets
(`YYYY-M-D` key to the ordered vehicle-count sequence), keys in
first-occurrence (chronological) order. -/
structure IntersectionAggregate where
  location : String
  data : List (String × List Nat)
deriving DecidableEq

/-- The published snapshot: intersection names in lexicographic order, each
with its aggregate. -/
abbrev Snapshot : Type := List (String × IntersectionAggregate)

/-- The mutable server state: the two `NodeCache` entries and the fetch
watermark.  `vehicleCountsCache` is `cache.get(VEHICLE_COUNTS) ?? []`;
`processedData` is `cache.get(PROCESSED_DATA)` (`none` before the first
successful cycle). -/
structure ServerState where
  vehicleCountsCache : List RawRecord
  processedData : Option Snapshot
  timeLastFetched : Int

/-! ## The pipeline (`server.js`) -/

/-- Embedding of `filterRollingWeek(vehicleCounts)` (lines 93-98): keep the
records at or after local midnight seven days ago minus one hour, sorted
ascending by timestamp. -/
def filterRollingWeek (now : Int) (vehicleCounts : List RawRecord) : List RawRecord :=
  sortByKey (fun r => r.timestamp)
    (vehicleCounts.filter
      (fun r => decide (getLocalMidnightNDaysAgo now 7 - ONE_HOUR_MS ≤ r.timestamp)))

/-- Embedding of `getLocation(intersectionName)` (lines 100-102): the
`cameraData` lookup; a missing name makes the property access throw. -/
def getLocation (cameraData : String → Option String) (intersectionName : String) :
    Except String String :=
  match cameraData intersectionName with
  | some loc => Except.ok loc
  | none => Except.error "TypeError: cannot read property location of undefined"

/-- The day grouping inside `getCountsByDay` (line 122): group the points by
their unpadded local-date key. -/
def dayGroupsOf (sortedCounts : List CPoint) : List (String × List CPoint) :=
  groupPairsBy (fun c => getYYYYMMDDDate c.timestamp) sortedCounts

/-- The compact day buckets inside `getCountsByDay` (lines 123-126): each
day key with its ordered vehicle-count sequence. -/
def compactCountsOf (sortedCounts : List CPoint) : List (String × List Nat) :=
  (dayGroupsOf sortedCounts).map (fun p => (p.1, p.2.map (fun c => c.vehicleCount)))

/-- The message thrown by the completeness check (line 131), without the
serialized payload. -/
def lengthCheckFailedMsg : String :=
  "[ERROR] Length check failed for full-day compact count array"

/-- Embedding of `getCountsByDay(sortedCounts)` (lines 121-136): group by
local-date key, project to count sequences, and throw unless every bucket
except the last (`dropRight` of the lengths) has exactly 96 entries. -/
def getCountsByDay (sortedCounts : List CPoint) : Except String (List (String × List Nat)) :=
  if ((compactCountsOf sortedCounts).map (fun p => p.2.length)).dropLast.all
      (fun n => decide (n = 96)) then
    Except.ok (compactCountsOf sortedCounts)
  else Except.error lengthCheckFailedMsg

/-- The `dtos` stage of `getOrganizedCounts` (lines 105-107): drop points
before `max(LAUNCH_DAY, getLocalMidnightNDaysAgo(7))` and project to
timestamp/count pairs (`pick`). -/
def dtosOf (now : Int) (countsArray : List QPoint) : List CPoint :=
  (countsArray.filter
      (fun c => decide (max LAUNCH_DAY (getLocalMidnightNDaysAgo now 7) ≤ c.timestamp))).map
    (fun c => CPoint.mk c.timestamp c.vehicleCount)

/-- The `sortedCounts` stage of `getOrganizedCounts` (lines 108-109): dedupe
by timestamp keeping the first encountered, then sort ascending by
timestamp. -/
def sortedCountsOf (now : Int) (countsArray : List QPoint) : List CPoint :=
  sortByKey (fun c => c.timestamp) (uniqBy (fun c => c.timestamp) (dtosOf now countsArray))

/-- Embedding of `getOrganizedCounts(countsArray)` (lines 104-113): drop
points before `max(LAUNCH_DAY, getLocalMidnightNDaysAgo(7))`, project to
timestamp/count pairs, dedupe by timestamp keeping the first encountered,
sort ascending by timestamp, and bucket by day. -/
def getOrganizedCounts (now : Int) (countsArray : List QPoint) :
    Except String (List (String × List Nat)) :=
  getCountsByDay (sortedCountsOf now countsArray)

/-- The quantize-group-sort prefix of `processAndCacheData` (lines 74-81):
quantize every record, group by intersection, and order the intersection
groups lexicographically by name. -/
def sortedIntersectionPairs (rollingWeek : List RawRecord) : List (String × List QPoint) :=
  sortByKey (fun p => p.1)
    (groupPairsBy (fun q => q.intersection)
      (rollingWeek.map
        (fun r => QPoint.mk r.intersection (roundToNearestQuarterHour r.timestamp)
          r.vehicleCount)))

/-- The per-intersection aggregate of lines 82-85: location lookup (first,
as the object literal evaluates it first), then the organized counts; either
throw aborts. -/
def processIntersection (now : Int) (cameraData : String → Option String)
    (p : String × List QPoint) : Except String (String × IntersectionAggregate) :=
  match getLocation cameraData p.1 with
  | Except.error e => Except.error e
  | Except.ok loc =>
      match getOrganizedCounts now p.2 with
      | Except.error e => Except.error e
      | Except.ok data => Except.ok (p.1, IntersectionAggregate.mk loc data)

/-- Embedding of `processAndCacheData(rollingWeek)` (lines 72-91) up to the
cache write: quantize, group by intersection, order the intersections
lexicographically, and build each aggregate; the first throwing lookup or
day-bucket check aborts the whole computation. -/
def processAndCacheData (now : Int) (cameraData : String → Option String)
    (rollingWeek : List RawRecord) : Except String Snapshot :=
  mapOrError (processIntersection now cameraData) (sortedIntersectionPairs rollingWeek)

/-- Embedding of the merge of lines 61-62: concatenate the cached window
with the freshly fetched batch and dedupe by `_id`, first encountered wins. -/
def mergeRecords (existing fetched : List RawRecord) : List RawRecord :=
  uniqBy (fun r => r._id) (existing ++ fetched)

/-- The rolling week computed by a successful fetch (lines 60-63), as a
function of the clock, the fetched batch and the previous state. -/
def computedRollingWeek (now : Int) (fetched : List RawRecord) (st : ServerState) :
    List RawRecord :=
  filterRollingWeek now (mergeRecords st.vehicleCountsCache fetched)

/-- Embedding of `fetchAndCacheRecords()` (lines 54-70).  The store query is
an input: `Except.error` models a rejected query.  The watermark is
reassigned before the query is awaited, so it advances even when the query
fails; the window cache is only rewritten on success.  Returns the new state
and the value of the JS function (the rolling week, or the thrown error). -/
def fetchAndCacheRecords (now : Int) (fetchResult : Except String (List RawRecord))
    (st : ServerState) : ServerState × Except String (List RawRecord) :=
  let st1 : ServerState :=
    { vehicleCountsCache := st.vehicleCountsCache
      processedData := st.processedData
      timeLastFetched := now }
  match fetchResult with
  | Except.error e => (st1, Except.error e)
  | Except.ok fetched =>
      let rollingWeek := computedRollingWeek now fetched st
      ({ vehicleCountsCache := rollingWeek
         processedData := st1.processedData
         timeLastFetched := now }, Except.ok rollingWeek)

/-- Embedding of one cycle `fetchProcessAndCacheNewData()` (lines 45-52):
fetch and cache records, then process; any thrown error is caught, leaving
the state as committed so far.  The snapshot cache is written only when the
whole aggregation succeeded. -/
def fetchProcessAndCacheNewData (now : Int) (fetchResult : Except String (List RawRecord))
    (cameraData : String → Option String) (st : ServerState) : ServerState :=
  match fetchAndCacheRecords now fetchResult st with
  | (st1, Except.error _) => st1
  | (st1, Except.ok rollingWeek) =>
      match processAndCacheData now cameraData rollingWeek with
      | Except.error _ => st1
      | Except.ok snap =>
          { vehicleCountsCache := st1.vehicleCountsCache
            processedData := some snap
            timeLastFetched := st1.timeLastFetched }

/-! ## Lemmas about `uniqBy` (lodash first-wins dedupe) -/

section UniqBy

variable {α κ : Type} [DecidableEq κ] (f : α → κ)

theorem mem_of_mem_uniqByAux {seen : List κ} {l : List α} {x : α}
    (h : x ∈ uniqByAux f seen l) : x ∈ l := by
  induction l generalizing seen with
  | nil => simp [uniqByAux] at h
  | cons y ys ih =>
      rw [uniqByAux] at h
      split at h
      · exact List.mem_cons_of_mem _ (ih h)
      · rcases List.mem_cons.mp h with h | h
        · exact h ▸ List.mem_cons_self _ _
        · exact List.mem_cons_of_mem _ (ih h)

theorem filter_uniqByAux_of_mem_seen {k : κ} {seen : List κ} (l : List α)
    (hk : k ∈ seen) :
    (uniqByAux f seen l).filter (fun x => decide (f x = k)) = [] := by
  induction l generalizing seen with
  | nil => rfl
  | cons y ys ih =>
      rw [uniqByAux]
      split
      · exact ih hk
      · rename_i hy
        have hne : ¬ f y = k := fun h => hy (h ▸ hk)
        rw [List.filter_cons]
        simp only [hne, decide_eq_true_eq, if_false]
        exact ih (List.mem_cons_of_mem _ hk)

theorem filter_uniqByAux_eq_find {k : κ} {seen : List κ} (l : List α)
    (hk : k ∉ seen) :
    (uniqByAux f seen l).filter (fun x => decide (f x = k))
      = (l.find? (fun x => decide (f x = k))).toList := by
  induction l generalizing seen with
  | nil => rfl
  | cons y ys ih =>
      rw [uniqByAux, List.find?]
      split
      · rename_i hy
        have hne : ¬ f y = k := fun h => hk (h ▸ hy)
        simp only [hne, decide_eq_true_eq, if_false, decide_False]
        exact ih hk
      · rename_i hy
        by_cases hyk : f y = k
        · simp only [hyk, decide_True, List.filter_cons, decide_eq_true_eq, if_true,
            Option.toList_some]
          rw [filter_uniqByAux_of_mem_seen f ys (List.mem_cons_self k seen)]
        · simp only [hyk, decide_False, List.filter_cons, decide_eq_true_eq, if_false]
          exact ih (by
            intro hc
            rcases List.mem_cons.mp hc with hc | hc
            · exact hyk hc.symm
            · exact hk hc)

theorem keys_uniqByAux_sub {k : κ} {seen : List κ} (l : List α)
    (hmem : k ∈ l.map f) (hk : k ∉ seen) : k ∈ (uniqByAux f seen l).map f := by
  induction l generalizing seen with
  | nil => simp at hmem
  | cons y ys ih =>
      rw [uniqByAux]
      rcases List.mem_map.mp hmem with ⟨x, hx, hfx⟩
      rcases List.mem_cons.mp hx with rfl | hx
      · split
        · rename_i hy
          exact absurd (hfx ▸ hy) hk
        · simp [hfx]
      · split
        · exact ih (List.mem_map.mpr ⟨x, hx, hfx⟩) hk
        · by_cases hyk : f y = k
          · simp [hyk]
          · have hnot : k ∉ f y :: seen := by
              intro hc
              rcases List.mem_cons.mp hc with hc | hc
              · exact hyk hc.symm
              · exact hk hc
            have := @ih (f y :: seen) (List.mem_map.mpr ⟨x, hx, hfx⟩) hnot
            simp [this]

theorem uniqByAux_eq_nil {seen : List κ} (l : List α)
    (h : ∀ x ∈ l, f x ∈ seen) : uniqByAux f seen l = [] := by
  induction l with
  | nil => rfl
  | cons y ys ih =>
      rw [uniqByAux]
      rw [if_pos (h y (List.mem_cons_self _ _))]
      exact ih (fun x hx => h x (List.mem_cons_of_mem _ hx))

theorem uniqByAux_append_no_new {seen : List κ} (l1 l2 : List α)
    (h : ∀ x ∈ l2, f x ∈ seen ∨ f x ∈ l1.map f) :
    uniqByAux f seen (l1 ++ l2) = uniqByAux f seen l1 := by
  induction l1 generalizing seen with
  | nil =>
      simp only [List.nil_append]
      refine uniqByAux_eq_nil f l2 (fun x hx => ?_)
      rcases h x hx with h' | h'
      · exact h'
      · simp at h'
  | cons y ys ih =>
      simp only [List.cons_append]
      rw [uniqByAux, uniqByAux]
      split
      · rename_i hy
        refine ih (fun x hx => ?_)
        rcases h x hx with h' | h'
        · exact Or.inl h'
        · simp only [List.map_cons, List.mem_cons] at h'
          rcases h' with h' | h'
          · exact Or.inl (h' ▸ hy)
          · exact Or.inr h'
      · congr 1
        refine ih (fun x hx => ?_)
        rcases h x hx with h' | h'
        · exact Or.inl (List.mem_cons_of_mem _ h')
        · simp only [List.map_cons, List.mem_cons] at h'
          rcases h' with h' | h'
          · exact Or.inl (h' ▸ List.mem_cons_self _ _)
          · exact Or.inr h'

theorem uniqByAux_idem {seen : List κ} (l : List α) :
    uniqByAux f seen (uniqByAux f seen l) = uniqByAux f seen l := by
  induction l generalizing seen with
  | nil => rfl
  | cons y ys ih =>
      rw [uniqByAux]
      split
      · exact ih
      · rename_i hy
        rw [uniqByAux, if_neg hy]
        congr 1
        exact ih

theorem uniqBy_merge_idem (w r : List α) :
    uniqBy f (uniqBy f (w ++ r) ++ r) = uniqBy f (w ++ r) := by
  unfold uniqBy
  rw [uniqByAux_append_no_new f _ r (fun x hx => Or.inr
    (keys_uniqByAux_sub f (w ++ r) (List.mem_map.mpr ⟨x, List.mem_append_right _ hx, rfl⟩)
      (List.not_mem_nil _)))]
  exact uniqByAux_idem f (w ++ r)

end UniqBy

/-! ## Lemmas about the stable sort -/

section SortByKey

variable {α κ : Type} [LinearOrder κ] (f : α → κ)

theorem insertSorted_perm (x : α) (l : List α) : (insertSorted f x l).Perm (x :: l) := by
  induction l with
  | nil => exact List.Perm.refl _
  | cons y ys ih =>
      rw [insertSorted]
      split
      · exact ((ih.cons y).trans (List.Perm.swap x y ys))
      · exact List.Perm.refl _

theorem sortByKey_perm (l : List α) : (sortByKey f l).Perm l := by
  induction l with
  | nil => exact List.Perm.refl _
  | cons x xs ih => exact (insertSorted_perm f x (sortByKey f xs)).trans (ih.cons x)

theorem mem_sortByKey {x : α} {l : List α} : x ∈ sortByKey f l ↔ x ∈ l :=
  (sortByKey_perm f l).mem_iff

theorem insertSorted_pairwise {x : α} {l : List α}
    (h : l.Pairwise (fun a b => f a ≤ f b)) :
    (insertSorted f x l).Pairwise (fun a b => f a ≤ f b) := by
  induction l with
  | nil => simp [insertSorted]
  | cons y ys ih =>
      rw [insertSorted]
      rcases List.pairwise_cons.mp h with ⟨hy, hys⟩
      split
      · rename_i hlt
        refine List.pairwise_cons.mpr ⟨?_, ih hys⟩
        intro b hb
        rcases List.mem_cons.mp ((insertSorted_perm f x ys).mem_iff.mp hb) with rfl | hb
        · exact le_of_lt hlt
        · exact hy b hb
      · rename_i hnlt
        refine List.pairwise_cons.mpr ⟨?_, h⟩
        intro b hb
        rcases List.mem_cons.mp hb with rfl | hb
        · exact le_of_not_lt hnlt
        · exact le_trans (le_of_not_lt hnlt) (hy b hb)

theorem sortByKey_pairwise (l : List α) :
    (sortByKey f l).Pairwise (fun a b => f a ≤ f b) := by
  induction l with
  | nil => simp [sortByKey]
  | cons x xs ih => exact insertSorted_pairwise f ih

end SortByKey

/-- Searching a concatenation finds the hit of the first part when there is
one. -/
theorem find?_append_of_find? {α : Type} {l1 : List α} (l2 : List α) {p : α → Bool}
    {y : α} (h : l1.find? p = some y) : (l1 ++ l2).find? p = some y := by
  induction l1 with
  | nil => simp [List.find?] at h
  | cons x xs ih =>
      rw [List.cons_append, List.find?]
      rw [List.find?] at h
      split
      · rename_i hp
        simp only [hp] at h
        exact h
      · rename_i hp
        simp only [hp] at h
        exact ih h

/-! ## Lemmas about decimal strings and the date key -/

/-- The numeric value of a decimal digit character. -/
def charVal (c : Char) : Nat := c.toNat - 48

/-- The numeric value of a most-significant-first decimal digit string. -/
def parseVal (l : List Char) : Nat := l.foldl (fun acc c => acc * 10 + charVal c) 0

theorem digitChar_ne_dash (d : Nat) : digitChar d ≠ '-' := by
  unfold digitChar
  split <;> decide

theorem charVal_digitChar {d : Nat} (h : d < 10) : charVal (digitChar d) = d := by
  interval_cases d <;> decide

theorem parseVal_append_digit (l : List Char) (c : Char) :
    parseVal (l ++ [c]) = parseVal l * 10 + charVal c := by
  unfold parseVal
  rw [List.foldl_append]
  rfl

theorem natToStrAux_spec (fuel : Nat) :
    ∀ n, n < fuel →
      parseVal (natToStrAux fuel n) = n ∧
      ∀ c ∈ natToStrAux fuel n, ∃ d, d < 10 ∧ c = digitChar d := by
  induction fuel with
  | zero => intro n hn; omega
  | succ fuel ih =>
      intro n hn
      rw [natToStrAux]
      by_cases h10 : n < 10
      · rw [if_pos h10]
        refine ⟨?_, ?_⟩
        · simp [parseVal, charVal_digitChar h10]
        · intro c hc
          rcases List.mem_singleton.mp hc with rfl
          exact ⟨n, h10, rfl⟩
      · rw [if_neg h10]
        have hdiv : n / 10 < fuel := by
          have : n / 10 < n := Nat.div_lt_self (by omega) (by omega)
          omega
        rcases ih (n / 10) hdiv with ⟨hval, hchars⟩
        refine ⟨?_, ?_⟩
        · rw [parseVal_append_digit, hval, charVal_digitChar (Nat.mod_lt _ (by omega))]
          omega
        · intro c hc
          rcases List.mem_append.mp hc with hc | hc
          · exact hchars c hc
          · rcases List.mem_singleton.mp hc with rfl
            exact ⟨n % 10, Nat.mod_lt _ (by omega), rfl⟩

theorem natToStr_inj {a b : Nat} (h : natToStr a = natToStr b) : a = b := by
  unfold natToStr at h
  have hdata : natToStrAux (a + 1) a = natToStrAux (b + 1) b := by injection h
  have ha := (natToStrAux_spec (a + 1) a (Nat.lt_succ_self a)).1
  have hb := (natToStrAux_spec (b + 1) b (Nat.lt_succ_self b)).1
  rw [← ha, ← hb, hdata]

theorem natToStr_no_dash (n : Nat) : ∀ c ∈ (natToStr n).data, c ≠ '-' := by
  intro c hc
  have := (natToStrAux_spec (n + 1) n (Nat.lt_succ_self n)).2 c hc
  rcases this with ⟨d, _, rfl⟩
  exact digitChar_ne_dash d

theorem dash_split {l1 l2 r1 r2 : List Char}
    (h1 : '-' ∉ l1) (h2 : '-' ∉ l2)
    (h : l1 ++ '-' :: r1 = l2 ++ '-' :: r2) : l1 = l2 ∧ r1 = r2 := by
  induction l1 generalizing l2 with
  | nil =>
      cases l2 with
      | nil => simpa using h
      | cons y ys =>
          simp only [List.nil_append, List.cons_append, List.cons.injEq] at h
          exact absurd (h.1 ▸ List.mem_cons_self y ys) (h.1 ▸ fun hc => h2 (h.1 ▸ List.mem_cons_self _ _))
  | cons x xs ih =>
      cases l2 with
      | nil =>
          simp only [List.cons_append, List.nil_append, List.cons.injEq] at h
          exact absurd (List.mem_cons_self x xs) (h.1 ▸ h1)
      | cons y ys =>
          simp only [List.cons_append, List.cons.injEq] at h
          rcases h with ⟨rfl, h⟩
          have := ih (fun hc => h1 (List.mem_cons_of_mem _ hc))
            (fun hc => h2 (List.mem_cons_of_mem _ hc)) h
          exact ⟨by rw [this.1], this.2⟩

/-- Splitting a dash-separated triple of dash-free strings is unambiguous. -/
theorem dash_triple_inj {a1 b1 c1 a2 b2 c2 : String}
    (ha1 : ∀ c ∈ a1.data, c ≠ '-') (hb1 : ∀ c ∈ b1.data, c ≠ '-')
    (ha2 : ∀ c ∈ a2.data, c ≠ '-') (hb2 : ∀ c ∈ b2.data, c ≠ '-')
    (h : a1 ++ "-" ++ b1 ++ "-" ++ c1 = a2 ++ "-" ++ b2 ++ "-" ++ c2) :
    a1 = a2 ∧ b1 = b2 ∧ c1 = c2 := by
  have hd := congrArg String.data h
  have hdash : ("-" : String).data = ['-'] := rfl
  simp only [String.data_append, hdash, List.append_assoc, List.cons_append,
    List.nil_append] at hd
  have s1 := dash_split (fun hc => ha1 '-' hc rfl) (fun hc => ha2 '-' hc rfl) hd
  have s2 := dash_split (fun hc => hb1 '-' hc rfl) (fun hc => hb2 '-' hc rfl) s1.2
  exact ⟨String.ext s1.1, String.ext s2.1, String.ext s2.2⟩

/-! ## Lemmas about the calendar embedding -/

/-- Total days of the `n` years starting at year `y`. -/
def yearsLen (y : Nat) : Nat → Nat
  | 0 => 0
  | n + 1 => yearsLen y n + yearLength (y + n)

theorem yearLength_ge (y : Nat) : 365 ≤ yearLength y := by
  unfold yearLength; split <;> omega

theorem yearsLen_succ_left (y n : Nat) :
    yearsLen y (n + 1) = yearLength y + yearsLen (y + 1) n := by
  induction n with
  | zero => simp [yearsLen]
  | succ m ih =>
      rw [yearsLen, ih, yearsLen]
      have : y + (m + 1) = y + 1 + m := by omega
      rw [this]
      omega

theorem yearSplit_spec (fuel : Nat) :
    ∀ y r, r < fuel →
      ∃ n r', yearSplit fuel y r = (y + n, r') ∧
        r = yearsLen y n + r' ∧ r' < yearLength (y + n) := by
  induction fuel with
  | zero => intro y r h; omega
  | succ fuel ih =>
      intro y r h
      rw [yearSplit]
      by_cases hr : r < yearLength y
      · rw [if_pos hr]
        exact ⟨0, r, by simp, by simp [yearsLen], by simpa using hr⟩
      · rw [if_neg hr]
        have hlen := yearLength_ge y
        have hrec : r - yearLength y < fuel := by omega
        rcases ih (y + 1) (r - yearLength y) hrec with ⟨n, r', heq, hsum, hlt⟩
        refine ⟨n + 1, r', ?_, ?_, ?_⟩
        · rw [heq]; congr 1; omega
        · rw [yearsLen_succ_left]; omega
        · have : y + (n + 1) = y + 1 + n := by omega
          rw [this]; exact hlt

/-- Cumulative days before 1-based month `m` in a year whose february has
`feb` days. -/
def monthStartF (feb m : Nat) : Nat :=
  if m = 1 then 0
  else if m = 2 then 31
  else if m = 3 then 31 + feb
  else if m = 4 then 62 + feb
  else if m = 5 then 92 + feb
  else if m = 6 then 123 + feb
  else if m = 7 then 153 + feb
  else if m = 8 then 184 + feb
  else if m = 9 then 215 + feb
  else if m = 10 then 245 + feb
  else if m = 11 then 276 + feb
  else 306 + feb

theorem monthFromDayOfYearF_recon (feb r m d : Nat)
    (h : monthFromDayOfYearF feb r = (m, d)) :
    monthStartF feb m + d = r + 1 ∧ 1 ≤ d := by
  unfold monthFromDayOfYearF at h
  by_cases c1 : r < 31
  · rw [if_pos c1] at h; injection h with hm hd; subst hm; subst hd; simp [monthStartF]; try omega
  · rw [if_neg c1] at h
    by_cases c2 : r < 31 + feb
    · rw [if_pos c2] at h; injection h with hm hd; subst hm; subst hd; simp [monthStartF]; try omega
    · rw [if_neg c2] at h
      by_cases c3 : r < 62 + feb
      · rw [if_pos c3] at h; injection h with hm hd; subst hm; subst hd; simp [monthStartF]; try omega
      · rw [if_neg c3] at h
        by_cases c4 : r < 92 + feb
        · rw [if_pos c4] at h; injection h with hm hd; subst hm; subst hd; simp [monthStartF]; try omega
        · rw [if_neg c4] at h
          by_cases c5 : r < 123 + feb
          · rw [if_pos c5] at h; injection h with hm hd; subst hm; subst hd; simp [monthStartF]; try omega
          · rw [if_neg c5] at h
            by_cases c6 : r < 153 + feb
            · rw [if_pos c6] at h; injection h with hm hd; subst hm; subst hd; simp [monthStartF]; try omega
            · rw [if_neg c6] at h
              by_cases c7 : r < 184 + feb
              · rw [if_pos c7] at h; injection h with hm hd; subst hm; subst hd; simp [monthStartF]; try omega
              · rw [if_neg c7] at h
                by_cases c8 : r < 215 + feb
                · rw [if_pos c8] at h; injection h with hm hd; subst hm; subst hd; simp [monthStartF]; try omega
                · rw [if_neg c8] at h
                  by_cases c9 : r < 245 + feb
                  · rw [if_pos c9] at h; injection h with hm hd; subst hm; subst hd; simp [monthStartF]; try omega
                  · rw [if_neg c9] at h
                    by_cases c10 : r < 276 + feb
                    · rw [if_pos c10] at h; injection h with hm hd; subst hm; subst hd; simp [monthStartF]; try omega
                    · rw [if_neg c10] at h
                      by_cases c11 : r < 306 + feb
                      · rw [if_pos c11] at h; injection h with hm hd; subst hm; subst hd; simp [monthStartF]; try omega
                      · rw [if_neg c11] at h
                        injection h with hm hd; subst hm; subst hd; simp [monthStartF]; try omega

theorem monthFromDayOfYearF_inj (feb : Nat) {r1 r2 : Nat}
    (h : monthFromDayOfYearF feb r1 = monthFromDayOfYearF feb r2) : r1 = r2 := by
  have h1 := monthFromDayOfYearF_recon feb r1 (monthFromDayOfYearF feb r1).1
    (monthFromDayOfYearF feb r1).2 rfl
  have h2 := monthFromDayOfYearF_recon feb r2 (monthFromDayOfYearF feb r2).1
    (monthFromDayOfYearF feb r2).2 rfl
  rw [h] at h1
  omega

theorem monthFromDayOfYear_inj (leap : Bool) {r1 r2 : Nat}
    (h : monthFromDayOfYear leap r1 = monthFromDayOfYear leap r2) : r1 = r2 :=
  monthFromDayOfYearF_inj (if leap then 29 else 28) h

theorem civilFromDayNumber_inj {z1 z2 : Nat}
    (h : civilFromDayNumber z1 = civilFromDayNumber z2) : z1 = z2 := by
  unfold civilFromDayNumber at h
  rcases yearSplit_spec (z1 + 1) 1970 z1 (Nat.lt_succ_self _) with ⟨n1, r1, he1, hs1, hl1⟩
  rcases yearSplit_spec (z2 + 1) 1970 z2 (Nat.lt_succ_self _) with ⟨n2, r2, he2, hs2, hl2⟩
  rw [he1, he2] at h
  simp only [Prod.mk.injEq] at h
  rcases h with ⟨hy, hm, hd⟩
  have hn : n1 = n2 := by omega
  subst hn
  have hpair : monthFromDayOfYear (isLeap (1970 + n1)) r1
      = monthFromDayOfYear (isLeap (1970 + n1)) r2 := Prod.ext hm hd
  have hr := monthFromDayOfYear_inj _ hpair
  omega

theorem dateStringOfDayNumber_inj {z1 z2 : Nat}
    (h : dateStringOfDayNumber z1 = dateStringOfDayNumber z2) : z1 = z2 := by
  unfold dateStringOfDayNumber at h
  have := dash_triple_inj (natToStr_no_dash _) (natToStr_no_dash _)
    (natToStr_no_dash _) (natToStr_no_dash _) h
  rcases this with ⟨hy, hm, hd⟩
  exact civilFromDayNumber_inj
    (Prod.ext (natToStr_inj hy) (Prod.ext (natToStr_inj hm) (natToStr_inj hd)))

theorem getYYYYMMDDDate_inj_on_day {ms1 ms2 : Int}
    (h1 : 0 ≤ dayNumberOfMs ms1) (h2 : 0 ≤ dayNumberOfMs ms2)
    (h : getYYYYMMDDDate ms1 = getYYYYMMDDDate ms2) :
    dayNumberOfMs ms1 = dayNumberOfMs ms2 := by
  unfold getYYYYMMDDDate at h
  have := dateStringOfDayNumber_inj h
  omega

theorem dayNumberOfMs_mono {ms1 ms2 : Int} (h : ms1 ≤ ms2) :
    dayNumberOfMs ms1 ≤ dayNumberOfMs ms2 := by
  unfold dayNumberOfMs
  exact Int.ediv_le_ediv (by norm_num [MS_PER_DAY]) (by omega)

/-! ## Lemmas about the day grouping -/

theorem mem_of_mem_groupPairsByAux {α κ : Type} [DecidableEq κ] (f : α → κ) :
    ∀ (fuel : Nat) (l : List α) (g : κ × List α), g ∈ groupPairsByAux f fuel l →
      ∀ b ∈ g.2, b ∈ l := by
  intro fuel
  induction fuel with
  | zero => intro l g hg; simp [groupPairsByAux] at hg
  | succ fuel ih =>
      intro l g hg b hb
      cases l with
      | nil => simp [groupPairsByAux] at hg
      | cons x xs =>
          rw [groupPairsByAux] at hg
          rcases List.mem_cons.mp hg with rfl | hg
          · rcases List.mem_cons.mp hb with rfl | hb
            · exact List.mem_cons_self _ _
            · exact List.mem_cons_of_mem _ (List.mem_of_mem_filter hb)
          · exact List.mem_cons_of_mem _
              (List.mem_of_mem_filter (ih _ g hg b hb))

/-- In a timestamp-sorted list of points whose local day numbers are
nonnegative (any instant from local midnight 1970-01-01 on), the day groups
produced by the grouping stage appear in strictly increasing chronological
order: every point of an earlier group lies on a strictly earlier local day
than every point of a later group. -/
theorem groupPairsByAux_day_pairwise :
    ∀ (fuel : Nat) (l : List CPoint), l.length ≤ fuel →
      l.Pairwise (fun a b => a.timestamp ≤ b.timestamp) →
      (∀ c ∈ l, 0 ≤ dayNumberOfMs c.timestamp) →
      (groupPairsByAux (fun c => getYYYYMMDDDate c.timestamp) fuel l).Pairwise
        (fun g1 g2 => ∀ a ∈ g1.2, ∀ b ∈ g2.2,
          dayNumberOfMs a.timestamp < dayNumberOfMs b.timestamp) := by
  intro fuel
  induction fuel with
  | zero =>
      intro l hl _ _
      have : l = [] := List.length_eq_zero.mp (Nat.le_zero.mp hl)
      subst this
      simp [groupPairsByAux]
  | succ fuel ih =>
      intro l hl hsort hdom
      cases l with
      | nil => simp [groupPairsByAux]
      | cons x xs =>
          rw [groupPairsByAux]
          rcases List.pairwise_cons.mp hsort with ⟨hx, hxs⟩
          refine List.pairwise_cons.mpr ⟨?_, ?_⟩
          · intro g hg a ha b hb
            have hbxs' : b ∈ xs.filter (fun y =>
                decide (¬ getYYYYMMDDDate y.timestamp = getYYYYMMDDDate x.timestamp)) :=
              mem_of_mem_groupPairsByAux _ fuel _ g hg b hb
            have hbxs : b ∈ xs := List.mem_of_mem_filter hbxs'
            have hbne : ¬ getYYYYMMDDDate b.timestamp = getYYYYMMDDDate x.timestamp := by
              have := List.of_mem_filter hbxs'
              simpa using this
            have hxb : x.timestamp ≤ b.timestamp := hx b hbxs
            have hmono := dayNumberOfMs_mono hxb
            have hda : dayNumberOfMs a.timestamp = dayNumberOfMs x.timestamp := by
              rcases List.mem_cons.mp ha with rfl | ha
              · rfl
              · have haeq : getYYYYMMDDDate a.timestamp = getYYYYMMDDDate x.timestamp := by
                  have := List.of_mem_filter ha
                  simpa using this
                exact getYYYYMMDDDate_inj_on_day
                  (hdom a (List.mem_cons_of_mem _ (List.mem_of_mem_filter ha)))
                  (hdom x (List.mem_cons_self _ _)) haeq
            have hdne : dayNumberOfMs b.timestamp ≠ dayNumberOfMs x.timestamp := by
              intro hc
              exact hbne (by unfold getYYYYMMDDDate; rw [hc])
            omega
          · refine ih _ ?_ (List.Pairwise.filter _ hxs) ?_
            · have := List.length_filter_le
                (fun y => decide (¬ getYYYYMMDDDate y.timestamp = getYYYYMMDDDate x.timestamp)) xs
              simp only [List.length_cons] at hl
              omega
            · intro c hc
              exact hdom c (List.mem_cons_of_mem _ (List.mem_of_mem_filter hc))

/-- `dayGroupsOf` on a timestamp-sorted in-domain list yields groups in
strictly increasing day order. -/
theorem dayGroupsOf_pairwise (sc : List CPoint)
    (hsort : sc.Pairwise (fun a b => a.timestamp ≤ b.timestamp))
    (hdom : ∀ c ∈ sc, 0 ≤ dayNumberOfMs c.timestamp) :
    (dayGroupsOf sc).Pairwise
      (fun g1 g2 => ∀ a ∈ g1.2, ∀ b ∈ g2.2,
        dayNumberOfMs a.timestamp < dayNumberOfMs b.timestamp) :=
  groupPairsByAux_day_pairwise sc.length sc (Nat.le_refl _) hsort hdom

/-! ## Lemmas about `mapOrError` and the error paths -/

theorem mapOrError_ok_forall {α β ε : Type} {g : α → Except ε β} :
    ∀ {l : List α} {out : List β}, mapOrError g l = Except.ok out →
      ∀ y ∈ out, ∃ x ∈ l, g x = Except.ok y := by
  intro l
  induction l with
  | nil =>
      intro out h y hy
      rw [mapOrError] at h
      cases h
      simp at hy
  | cons x xs ih =>
      intro out h y hy
      rw [mapOrError] at h
      cases hgx : g x with
      | error e => rw [hgx] at h; simp [Except.bind] at h
      | ok y0 =>
          rw [hgx] at h
          cases hrest : mapOrError g xs with
          | error e => rw [hrest] at h; simp [Except.bind] at h
          | ok ys =>
              rw [hrest] at h
              simp only [Except.bind, Except.ok.injEq] at h
              subst h
              rcases List.mem_cons.mp hy with rfl | hy
              · exact ⟨x, List.mem_cons_self _ _, hgx⟩
              · rcases ih hrest y hy with ⟨x', hx', hgx'⟩
                exact ⟨x', List.mem_cons_of_mem _ hx', hgx'⟩

theorem mapOrError_error_of_mem {α β ε : Type} {g : α → Except ε β} :
    ∀ {l : List α} {x : α} {e : ε}, x ∈ l → g x = Except.error e →
      ∃ e', mapOrError g l = Except.error e' := by
  intro l
  induction l with
  | nil => intro x e hx; simp at hx
  | cons y ys ih =>
      intro x e hx hgx
      rw [mapOrError]
      rcases List.mem_cons.mp hx with rfl | hx
      · rw [hgx]
        exact ⟨e, rfl⟩
      · cases hgy : g y with
        | error e0 => exact ⟨e0, rfl⟩
        | ok y0 =>
            rcases ih hx hgx with ⟨e', he'⟩
            rw [he']
            exact ⟨e', rfl⟩

theorem getCountsByDay_ok {sc : List CPoint} {out : List (String × List Nat)}
    (h : getCountsByDay sc = Except.ok out) :
    out = compactCountsOf sc ∧ ∀ day ∈ out.dropLast, day.2.length = 96 := by
  unfold getCountsByDay at h
  split at h
  · rename_i hall
    cases h
    refine ⟨rfl, ?_⟩
    intro day hday
    have hmem : day.2.length ∈ ((compactCountsOf sc).map (fun p => p.2.length)).dropLast := by
      rw [← List.map_dropLast]
      exact List.mem_map.mpr ⟨day, hday, rfl⟩
    have := List.all_eq_true.mp hall _ hmem
    exact of_decide_eq_true this
  · cases h

theorem getCountsByDay_error {sc : List CPoint} {day : String × List Nat}
    (hmem : day ∈ (compactCountsOf sc).dropLast) (hlen : day.2.length ≠ 96) :
    getCountsByDay sc = Except.error lengthCheckFailedMsg := by
  unfold getCountsByDay
  split
  · rename_i hall
    exfalso
    apply hlen
    have hmem' : day.2.length ∈ ((compactCountsOf sc).map (fun p => p.2.length)).dropLast := by
      rw [← List.map_dropLast]
      exact List.mem_map.mpr ⟨day, hmem, rfl⟩
    exact of_decide_eq_true (List.all_eq_true.mp hall _ hmem')
  · rfl

/-! ## Lemmas about the cycle state machine -/

theorem cycle_fetchError (now : Int) (e : String) (cameraData : String → Option String)
    (st : ServerState) :
    fetchProcessAndCacheNewData now (Except.error e) cameraData st
      = { vehicleCountsCache := st.vehicleCountsCache
          processedData := st.processedData
          timeLastFetched := now } := rfl

theorem cycle_processError {now : Int} {fetched : List RawRecord}
    {cameraData : String → Option String} {st : ServerState} {e : String}
    (h : processAndCacheData now cameraData (computedRollingWeek now fetched st)
          = Except.error e) :
    fetchProcessAndCacheNewData now (Except.ok fetched) cameraData st
      = { vehicleCountsCache := computedRollingWeek now fetched st
          processedData := st.processedData
          timeLastFetched := now } := by
  unfold fetchProcessAndCacheNewData fetchAndCacheRecords
  simp only [h]

theorem cycle_processOk {now : Int} {fetched : List RawRecord}
    {cameraData : String → Option String} {st : ServerState} {snap : Snapshot}
    (h : processAndCacheData now cameraData (computedRollingWeek now fetched st)
          = Except.ok snap) :
    fetchProcessAndCacheNewData now (Except.ok fetched) cameraData st
      = { vehicleCountsCache := computedRollingWeek now fetched st
          processedData := some snap
          timeLastFetched := now } := by
  unfold fetchProcessAndCacheNewData fetchAndCacheRecords
  simp only [h]

/-! ## Concrete inputs used by the witnesses -/

/-- A camera-data table knowing the intersection "Main". -/
def camW : String → Option String := fun n => if n = "Main" then some "49.2,-123.1" else none

/-- A camera-data table that resolves no intersection name. -/
def camNone : String → Option String := fun _ => none

/-- The initial server state: empty window cache, no published snapshot. -/
def stW : ServerState :=
  { vehicleCountsCache := [], processedData := none, timeLastFetched := 0 }

/-- A record on the quarter-hour grid, 15 minutes after `LAUNCH_DAY`. -/
def recW : RawRecord :=
  { _id := "a1", intersection := "Main", timestamp := LAUNCH_DAY + 900000, vehicleCount := 5 }

/-- A second record with the same `_id` as `recW` but different fields. -/
def recW2 : RawRecord :=
  { _id := "a1", intersection := "Main", timestamp := LAUNCH_DAY + 1800000, vehicleCount := 7 }

/-- A clock reading two days after launch. -/
def nowW : Int := LAUNCH_DAY + 2 * 86400000

/-- The snapshot a successful cycle over `[recW]` publishes. -/
def snapW : Snapshot :=
  [("Main", { location := "49.2,-123.1", data := [("2023-12-30", [5])] })]

/-! ## The claims -/

/-- C5.  Merging into the rolling window is idempotent: for every existing
window and every fetched record sequence, merging the sequence twice (dedupe
by `_id` applied after each merge, as lines 61-62 do) yields the same list
as merging it once. -/
theorem C5_merge_idempotent (w r : List RawRecord) :
    mergeRecords (mergeRecords w r) r = mergeRecords w r := by
  show uniqBy (fun x => x._id) (uniqBy (fun x => x._id) (w ++ r) ++ r)
      = uniqBy (fun x => x._id) (w ++ r)
  exact uniqBy_merge_idem (fun x => x._id) w r

/-- C7.  When the existing window and the newly fetched batch both contain a
record with the same `_id`, exactly one record with that `_id` survives the
merge, namely the first-encountered copy; since line 61 places the cached
window before the fetched batch, that is the first matching record of the
existing window. -/
theorem C7_merge_first_wins (existing fetched : List RawRecord) (k : String)
    (y : RawRecord)
    (hfind : existing.find? (fun x => decide (x._id = k)) = some y)
    (hboth : ∃ x ∈ fetched, x._id = k) :
    (mergeRecords existing fetched).filter (fun x => decide (x._id = k)) = [y] := by
  unfold mergeRecords uniqBy
  rw [filter_uniqByAux_eq_find (fun x => x._id) (existing ++ fetched) (List.not_mem_nil k)]
  rw [find?_append_of_find? fetched hfind]
  rfl

/-- Witness for C7 at a concrete duplicated `_id`. -/
theorem C7_merge_first_wins_witness :
    (mergeRecords [recW] [recW2]).filter (fun x => decide (x._id = "a1")) = [recW] :=
  C7_merge_first_wins [recW] [recW2] "a1" recW (by decide) ⟨recW2, by decide, by decide⟩

/-- C6.  After pruning, every retained record is at or after local midnight
seven days ago minus one hour, every input record meeting the bound is
retained, and the result is sorted ascending by timestamp. -/
theorem C6_window_bound (now : Int) (l : List RawRecord) :
    (∀ r ∈ filterRollingWeek now l,
        getLocalMidnightNDaysAgo now 7 - ONE_HOUR_MS ≤ r.timestamp)
    ∧ (∀ r ∈ l, getLocalMidnightNDaysAgo now 7 - ONE_HOUR_MS ≤ r.timestamp →
        r ∈ filterRollingWeek now l)
    ∧ (filterRollingWeek now l).Pairwise (fun a b => a.timestamp ≤ b.timestamp) := by
  unfold filterRollingWeek
  refine ⟨?_, ?_, sortByKey_pairwise _ _⟩
  · intro r hr
    have hmem := (mem_sortByKey _).mp hr
    exact of_decide_eq_true (List.mem_filter.mp hmem).2
  · intro r hr hts
    exact (mem_sortByKey _).mpr (List.mem_filter.mpr ⟨hr, decide_eq_true hts⟩)

/-- Witness for C6 at a concrete record and clock. -/
theorem C6_window_bound_witness :
    recW ∈ filterRollingWeek nowW [recW]
    ∧ (∀ r ∈ filterRollingWeek nowW [recW],
        getLocalMidnightNDaysAgo nowW 7 - ONE_HOUR_MS ≤ r.timestamp) :=
  ⟨(C6_window_bound nowW [recW]).2.1 recW (by decide) (by decide),
   (C6_window_bound nowW [recW]).1⟩

/-- C3.  Quantization returns `round(m / 900000) * 900000` with round-half-up
arithmetic: the embedded integer computation equals the rational floor of
`m / 900000 + 1 / 2` scaled back, equals the integer formula
`(m + 450000) / 900000 * 900000` (floor division), and a timestamp 7 min 29 s
into a 15-minute slot rounds down to the slot start while 7 min 31 s rounds
up to the next slot start. -/
theorem C3_quarter_hour_rounding :
    (∀ m : Int, roundToNearestQuarterHour m = ⌊(m : ℚ) / 900000 + 1 / 2⌋ * 900000)
    ∧ (∀ m : Int, roundToNearestQuarterHour m = (m + 450000) / 900000 * 900000)
    ∧ (∀ k : Int, roundToNearestQuarterHour (k * 900000 + (7 * 60 + 29) * 1000) = k * 900000)
    ∧ (∀ k : Int,
        roundToNearestQuarterHour (k * 900000 + (7 * 60 + 31) * 1000) = (k + 1) * 900000) := by
  have h2 : ∀ m : Int, roundToNearestQuarterHour m = (m + 450000) / 900000 * 900000 := by
    intro m
    unfold roundToNearestQuarterHour jsMathRoundDiv
    norm_num
    have h : 2 * m + 900000 = 2 * (m + 450000) := by ring
    rw [h, show (1800000 : ℤ) = 2 * 900000 by norm_num,
      Int.mul_ediv_mul_of_pos _ _ (by norm_num : (0:ℤ) < 2)]
  refine ⟨?_, h2, ?_, ?_⟩
  · intro m
    unfold roundToNearestQuarterHour jsMathRoundDiv
    have h1 : (m : ℚ) / 900000 + 1 / 2 = ((2 * m + 900000 : ℤ) : ℚ) / ((1800000 : ℕ) : ℚ) := by
      push_cast
      field_simp
      ring
    rw [h1, Rat.floor_intCast_div_natCast]
    norm_num
  · intro k
    rw [h2]
    omega
  · intro k
    rw [h2]
    omega

/-- C10.  When aggregation fails after a successful fetch, only the snapshot
is protected: the window cache already holds the freshly merged-and-pruned
record set and the watermark has already advanced to the cycle clock, while
the published snapshot is unchanged. -/
theorem C10_fetch_commits_before_aggregation (now : Int) (fetched : List RawRecord)
    (cameraData : String → Option String) (st : ServerState) (e : String)
    (h : processAndCacheData now cameraData (computedRollingWeek now fetched st)
          = Except.error e) :
    (fetchProcessAndCacheNewData now (Except.ok fetched) cameraData st).vehicleCountsCache
        = computedRollingWeek now fetched st
    ∧ (fetchProcessAndCacheNewData now (Except.ok fetched) cameraData st).timeLastFetched
        = now
    ∧ (fetchProcessAndCacheNewData now (Except.ok fetched) cameraData st).processedData
        = st.processedData := by
  rw [cycle_processError h]
  exact ⟨rfl, rfl, rfl⟩

/-- Witness for C10: a cycle whose location lookup fails. -/
theorem C10_fetch_commits_before_aggregation_witness :
    (fetchProcessAndCacheNewData nowW (Except.ok [recW]) camNone stW).vehicleCountsCache
        = computedRollingWeek nowW [recW] stW
    ∧ (fetchProcessAndCacheNewData nowW (Except.ok [recW]) camNone stW).timeLastFetched
        = nowW
    ∧ (fetchProcessAndCacheNewData nowW (Except.ok [recW]) camNone stW).processedData
        = stW.processedData :=
  C10_fetch_commits_before_aggregation nowW [recW] camNone stW
    "TypeError: cannot read property location of undefined" (by decide)

/-- C2.  A cycle in which a stage fails leaves the published snapshot
unchanged (the snapshot cache is only written after the whole aggregation
succeeded), and a later successful cycle still publishes the snapshot its
aggregation computes: the first conjunct covers store fetch errors, the
second covers aggregation errors (completeness check or location lookup),
the third runs a successful cycle after an arbitrary earlier cycle. -/
theorem C2_failed_cycle_preserves_snapshot :
    (∀ (now : Int) (e : String) (cameraData : String → Option String) (st : ServerState),
        (fetchProcessAndCacheNewData now (Except.error e) cameraData st).processedData
          = st.processedData)
    ∧ (∀ (now : Int) (fetched : List RawRecord) (cameraData : String → Option String)
          (st : ServerState) (e : String),
        processAndCacheData now cameraData (computedRollingWeek now fetched st)
            = Except.error e →
        (fetchProcessAndCacheNewData now (Except.ok fetched) cameraData st).processedData
          = st.processedData)
    ∧ (∀ (now1 : Int) (fr1 : Except String (List RawRecord))
          (cameraData : String → Option String) (st : ServerState)
          (now2 : Int) (fetched2 : List RawRecord) (snap : Snapshot),
        processAndCacheData now2 cameraData
            (computedRollingWeek now2 fetched2 (fetchProcessAndCacheNewData now1 fr1 cameraData st))
            = Except.ok snap →
        (fetchProcessAndCacheNewData now2 (Except.ok fetched2) cameraData
            (fetchProcessAndCacheNewData now1 fr1 cameraData st)).processedData
          = some snap) := by
  refine ⟨?_, ?_, ?_⟩
  · intro now e cameraData st
    rw [cycle_fetchError]
  · intro now fetched cameraData st e h
    rw [cycle_processError h]
  · intro now1 fr1 cameraData st now2 fetched2 snap h
    rw [cycle_processOk h]

/-- Witness for C2: a store-error cycle, a location-failure cycle, and a
successful cycle after the failed one. -/
theorem C2_failed_cycle_preserves_snapshot_witness :
    (fetchProcessAndCacheNewData nowW (Except.error "boom") camW stW).processedData
        = stW.processedData
    ∧ (fetchProcessAndCacheNewData nowW (Except.ok [recW]) camNone stW).processedData
        = stW.processedData
    ∧ (fetchProcessAndCacheNewData nowW (Except.ok [recW]) camW
          (fetchProcessAndCacheNewData nowW (Except.error "boom") camW stW)).processedData
        = some snapW :=
  ⟨C2_failed_cycle_preserves_snapshot.1 nowW "boom" camW stW,
   C2_failed_cycle_preserves_snapshot.2.1 nowW [recW] camNone stW
     "TypeError: cannot read property location of undefined" (by decide),
   C2_failed_cycle_preserves_snapshot.2.2 nowW (Except.error "boom") camW stW
     nowW [recW] snapW (by decide)⟩

/-- C9.  Quantization can move a point across a local calendar-day boundary:
the instant 2024-01-15 23:52:30.000 local time (UTC-8), i.e. epoch
millisecond 1705391550000, lies in the last 7.5 minutes of its local day
(85950000 ms = 23 h 52 min 30 s into the day); rounding moves it to the next
local midnight, so the day key computed from the quantized timestamp is the
following calendar day "2024-1-16", not "2024-1-15". -/
theorem C9_quantization_day_shift :
    (1705391550000 + TZ_OFFSET_MS) % MS_PER_DAY = 23 * 3600000 + 52 * 60000 + 30000
    ∧ getYYYYMMDDDate 1705391550000 = "2024-1-15"
    ∧ roundToNearestQuarterHour 1705391550000 = 1705392000000
    ∧ getYYYYMMDDDate (roundToNearestQuarterHour 1705391550000) = "2024-1-16"
    ∧ dayNumberOfMs (roundToNearestQuarterHour 1705391550000)
        = dayNumberOfMs 1705391550000 + 1 := by
  decide

/-- A record on the grid one hour before `LAUNCH_DAY`: inside the rolling
window for a clock shortly after launch, but before the aggregation
cutoff. -/
def recOld : RawRecord :=
  { _id := "a0", intersection := "Main", timestamp := LAUNCH_DAY - ONE_HOUR_MS,
    vehicleCount := 3 }

/-- The quantized point of `recOld`. -/
def qOld : QPoint :=
  { intersection := "Main", timestamp := LAUNCH_DAY - ONE_HOUR_MS, vehicleCount := 3 }

/-- C8.  Per-intersection aggregation drops every point with timestamp older
than `max(LAUNCH_DAY, getLocalMidnightNDaysAgo(7))`: removing such a point
from the input never changes the organized counts.  Concretely, a record one
hour before launch (within the rolling-window bound for a clock two days
after launch) stays in the rolling-window cache yet the published snapshot
is the same as if the record did not exist. -/
theorem C8_aggregation_cutoff :
    (∀ (now : Int) (pts1 pts2 : List QPoint) (q : QPoint),
        q.timestamp < max LAUNCH_DAY (getLocalMidnightNDaysAgo now 7) →
        getOrganizedCounts now (pts1 ++ q :: pts2) = getOrganizedCounts now (pts1 ++ pts2))
    ∧ recOld ∈ (fetchProcessAndCacheNewData nowW (Except.ok [recOld, recW])
        camW stW).vehicleCountsCache
    ∧ recOld.timestamp < LAUNCH_DAY
    ∧ getLocalMidnightNDaysAgo nowW 7 - ONE_HOUR_MS ≤ recOld.timestamp
    ∧ (fetchProcessAndCacheNewData nowW (Except.ok [recOld, recW]) camW stW).processedData
        = (fetchProcessAndCacheNewData nowW (Except.ok [recW]) camW stW).processedData
    ∧ (fetchProcessAndCacheNewData nowW (Except.ok [recOld, recW]) camW stW).processedData
        = some snapW := by
  refine ⟨?_, by decide, by decide, by decide, by decide, by decide⟩
  intro now pts1 pts2 q hq
  unfold getOrganizedCounts sortedCountsOf dtosOf
  have hqf : decide (max LAUNCH_DAY (getLocalMidnightNDaysAgo now 7) ≤ q.timestamp) = false :=
    decide_eq_false (not_le.mpr hq)
  simp only [List.filter_append, List.filter_cons, hqf, Bool.false_eq_true, if_false]

/-- Witness for C8 discharging the cutoff hypothesis at a concrete point. -/
theorem C8_aggregation_cutoff_witness :
    getOrganizedCounts nowW ([] ++ qOld :: []) = getOrganizedCounts nowW ([] ++ []) :=
  C8_aggregation_cutoff.1 nowW [] [] qOld (by decide)

/-- Local midnight of 2024-01-10 (UTC-8), epoch day number 19732. -/
def dayStartC4 : Int := 19732 * 86400000 + 28800000

/-- A clock two days after `dayStartC4`. -/
def nowC4 : Int := dayStartC4 + 2 * 86400000

/-- 97 raw records for intersection "Main" spanning exactly one full local
day: one observation on each of the 96 grid slots of 2024-01-10, plus a
second observation (distinct `_id`, jittered by one minute) on slot 40. -/
def recsC4 : List RawRecord :=
  (List.range 96).map
    (fun i => { _id := "m" ++ natToStr i, intersection := "Main",
                timestamp := dayStartC4 + 900000 * (i : Int), vehicleCount := i })
    ++ [{ _id := "dup", intersection := "Main",
          timestamp := dayStartC4 + 900000 * 40 + 60000, vehicleCount := 777 }]

/-- The snapshot the aggregation publishes for `recsC4`: one bucket for
2024-01-10 holding the 96 first-encountered counts, the duplicate slot-40
observation collapsed away. -/
def snapC4 : Snapshot :=
  [("Main", { location := "49.2,-123.1", data := [("2024-1-10", List.range 96)] })]

/-- C4.  Dedupe by quantized timestamp: among points sharing a grid instant
exactly one survives, the first encountered in input order (the filtered
survivors for any key equal the first `find?` hit of the pre-dedupe list),
and the survivors are sorted ascending by timestamp.  Consequently the 97
records of `recsC4`, which span exactly one full local day with one
duplicated slot, aggregate to a single day bucket of exactly 96 counts. -/
theorem C4_dedupe_by_quantized_timestamp :
    (∀ (now : Int) (pts : List QPoint) (k : Int),
        (sortedCountsOf now pts).filter (fun c => decide (c.timestamp = k))
          = ((dtosOf now pts).find? (fun c => decide (c.timestamp = k))).toList)
    ∧ (∀ (now : Int) (pts : List QPoint),
        (sortedCountsOf now pts).Pairwise (fun a b => a.timestamp ≤ b.timestamp))
    ∧ recsC4.length = 97
    ∧ processAndCacheData nowC4 camW (computedRollingWeek nowC4 recsC4 stW)
        = Except.ok snapC4
    ∧ (List.range 96).length = 96 := by
  refine ⟨?_, ?_, by decide, by decide, by decide⟩
  · intro now pts k
    unfold sortedCountsOf
    have hperm := (sortByKey_perm (fun c => c.timestamp)
      (uniqBy (fun c => c.timestamp) (dtosOf now pts))).filter
      (fun c => decide (c.timestamp = k))
    have hfind := filter_uniqByAux_eq_find (fun c => c.timestamp) (dtosOf now pts)
      (List.not_mem_nil k)
    rw [show uniqBy (fun c => c.timestamp) (dtosOf now pts)
        = uniqByAux (fun c => c.timestamp) [] (dtosOf now pts) from rfl] at hperm
    rw [hfind] at hperm
    cases hf : (dtosOf now pts).find? (fun c => decide (c.timestamp = k)) with
    | none =>
        rw [hf] at hperm
        exact List.Perm.eq_nil hperm
    | some y =>
        rw [hf] at hperm
        exact List.perm_singleton.mp hperm
  · intro now pts
    exact sortByKey_pairwise _ _

/-- A second in-range record three days after launch, same intersection. -/
def recFar : RawRecord :=
  { _id := "a9", intersection := "Main", timestamp := LAUNCH_DAY + 3 * 86400000,
    vehicleCount := 4 }

/-- A clock four days after launch. -/
def nowBad : Int := LAUNCH_DAY + 4 * 86400000

/-- A rolling week spanning two local days with only one observation on the
earlier day: its completeness check must fail. -/
def weekBad : List RawRecord := [recW, recFar]

/-- The intersection group the aggregation builds for `weekBad`. -/
def pBad : String × List QPoint :=
  ("Main",
   [{ intersection := "Main", timestamp := LAUNCH_DAY + 900000, vehicleCount := 5 },
    { intersection := "Main", timestamp := LAUNCH_DAY + 3 * 86400000, vehicleCount := 4 }])

/-- The under-filled earlier day bucket of `pBad`. -/
def dayBad : String × List Nat := ("2023-12-30", [5])

/-- C1.  The completeness invariant.  (i) In every published snapshot, every
day bucket of every intersection except the final one holds exactly 96
counts.  (ii) If for any intersection group some day bucket other than the
final one has a length other than 96, the aggregation of that cycle throws.
(iii) A cycle whose aggregation throws leaves the published snapshot
unchanged, so no snapshot is published for that cycle.  (iv) The day buckets
of an intersection are listed in strictly increasing chronological order
(every point of an earlier group lies on a strictly earlier local day), so
the exempted final bucket is the chronologically last day. -/
theorem C1_completeness_invariant :
    (∀ (now : Int) (cameraData : String → Option String) (week : List RawRecord)
        (snap : Snapshot),
        processAndCacheData now cameraData week = Except.ok snap →
        ∀ e ∈ snap, ∀ day ∈ e.2.data.dropLast, day.2.length = 96)
    ∧ (∀ (now : Int) (cameraData : String → Option String) (week : List RawRecord)
        (p : String × List QPoint) (day : String × List Nat),
        p ∈ sortedIntersectionPairs week →
        day ∈ (compactCountsOf (sortedCountsOf now p.2)).dropLast →
        day.2.length ≠ 96 →
        ∃ e, processAndCacheData now cameraData week = Except.error e)
    ∧ (∀ (now : Int) (fetched : List RawRecord) (cameraData : String → Option String)
        (st : ServerState) (e : String),
        processAndCacheData now cameraData (computedRollingWeek now fetched st)
            = Except.error e →
        (fetchProcessAndCacheNewData now (Except.ok fetched) cameraData st).processedData
          = st.processedData)
    ∧ (∀ (now : Int) (pts : List QPoint),
        (dayGroupsOf (sortedCountsOf now pts)).Pairwise
          (fun g1 g2 => ∀ a ∈ g1.2, ∀ b ∈ g2.2,
            dayNumberOfMs a.timestamp < dayNumberOfMs b.timestamp)) := by
  refine ⟨?_, ?_, ?_, ?_⟩
  · intro now cameraData week snap h e he day hday
    rcases mapOrError_ok_forall h e he with ⟨p, hp, hpe⟩
    unfold processIntersection at hpe
    split at hpe
    · exact absurd hpe (by simp)
    · split at hpe
      · exact absurd hpe (by simp)
      · rename_i loc hloc data horg
        cases hpe
        unfold getOrganizedCounts at horg
        exact (getCountsByDay_ok horg).2 day hday
  · intro now cameraData week p day hp hday hlen
    have herr := getCountsByDay_error hday hlen
    have hpe : ∃ e0, processIntersection now cameraData p = Except.error e0 := by
      rcases hloc : getLocation cameraData p.1 with e0 | loc
      · refine ⟨e0, ?_⟩
        unfold processIntersection
        rw [hloc]
      · refine ⟨lengthCheckFailedMsg, ?_⟩
        unfold processIntersection
        rw [hloc]
        have horg : getOrganizedCounts now p.2 = Except.error lengthCheckFailedMsg := by
          unfold getOrganizedCounts
          exact herr
        rw [horg]
    rcases hpe with ⟨e0, hpe⟩
    exact mapOrError_error_of_mem hp hpe
  · intro now fetched cameraData st e h
    rw [cycle_processError h]
  · intro now pts
    refine dayGroupsOf_pairwise _ (sortByKey_pairwise _ _) ?_
    intro c hc
    unfold sortedCountsOf dtosOf at hc
    have hmem := (mem_sortByKey _).mp hc
    have hmem2 := mem_of_mem_uniqByAux _ hmem
    rcases List.mem_map.mp hmem2 with ⟨q, hq, rfl⟩
    have hts : max LAUNCH_DAY (getLocalMidnightNDaysAgo now 7) ≤ q.timestamp :=
      of_decide_eq_true (List.mem_filter.mp hq).2
    have hL : LAUNCH_DAY ≤ q.timestamp := le_trans (le_max_left _ _) hts
    have h0 : (0 : Int) ≤ dayNumberOfMs LAUNCH_DAY := by decide
    have hmono := dayNumberOfMs_mono hL
    show (0 : Int) ≤ dayNumberOfMs q.timestamp
    omega

/-- Witness for C1: a published snapshot with its exempt single bucket, a
two-day group whose earlier day is under-filled making the aggregation
throw, the cycle that therefore publishes nothing, and the group order of a
concrete input. -/
theorem C1_completeness_invariant_witness :
    (∀ e ∈ snapW, ∀ day ∈ e.2.data.dropLast, day.2.length = 96)
    ∧ (∃ e, processAndCacheData nowBad camW weekBad = Except.error e)
    ∧ ((fetchProcessAndCacheNewData nowW (Except.ok [recW]) camNone stW).processedData
        = stW.processedData)
    ∧ (dayGroupsOf (sortedCountsOf nowBad pBad.2)).Pairwise
        (fun g1 g2 => ∀ a ∈ g1.2, ∀ b ∈ g2.2,
          dayNumberOfMs a.timestamp < dayNumberOfMs b.timestamp) :=
  ⟨C1_completeness_invariant.1 nowW camW (computedRollingWeek nowW [recW] stW) snapW
     (by decide),
   C1_completeness_invariant.2.1 nowBad camW weekBad pBad dayBad (by decide) (by decide)
     (by decide),
   C1_completeness_invariant.2.2.1 nowW [recW] camNone stW
     "TypeError: cannot read property location of undefined" (by decide),
   C1_completeness_invariant.2.2.2 nowBad pBad.2⟩

end TrafficSense
